import Mathlib

/-!
Shallow embedding of the background rotation/retention scheduler in
`monitoring/tasks.py` of the ProjetoIntegradorMonitoramento repository.

Modelling conventions:
* Timestamps are minutes in the configured local timezone
  (`America/Sao_Paulo`, a fixed UTC offset in the modelled era, so
  `timezone.localtime` / `timezone.make_aware` are inverse bijections and
  `timedelta(days=1)` coincides with one local calendar day).  Minutes are
  counted from 1970-01-01 00:00 local time; the local calendar date of a
  timestamp `t` is `t / 1440`, and midnight of day `d` is `d * 1440`.
* Python floats are modelled as exact rationals (`ℚ`); `round(x, n)` is
  rounding to the nearest multiple of `10⁻ⁿ` (the half-even/half-up tie
  difference does not affect any property stated here).
* The Django `Measurement` table is a list of rows; ORM calls
  (`count`, `latest`, `earliest`, `filter(ts__gte=…, ts__lt=…)`,
  `exists`, `create`, `delete`) become list operations.
* `random.gauss` draws are an injected stream `g : ℕ → ℚ × ℚ` (one raw
  temperature/humidity pair per `_generate_realistic_values` call) with a
  threaded position counter.
* Python exceptions caught by the `try/except` in
  `rotate_and_append_daily_measurements` are modelled by an `ok` flag on
  the insertion loop's result.  Because that `except` swallows the
  exception *inside* the `@transaction.atomic` scope, the transaction
  commits whatever was already written; the model therefore keeps the
  partially inserted records in the failure branch.
-/

namespace Monitoring

/-- Minutes per local calendar day. -/
def minutesPerDay : Nat := 1440

/-- 2025-01-01 (the bootstrap date hard-coded in `_get_next_day`) as a
count of days since 1970-01-01: 55 years of which 14 are leap years. -/
def bootstrapDay : Nat := 20089

/-- One row of the `monitoring_measurement` table (`models.Measurement`):
a timezone-aware timestamp and six float columns.  `Measurement.objects.create`
in `_insert_day_records` sets min = max = current for both quantities. -/
structure Measurement where
  ts : Nat
  temp_current : ℚ
  temp_min : ℚ
  temp_max : ℚ
  rh_current : ℚ
  rh_min : ℚ
  rh_max : ℚ
  deriving DecidableEq, Repr

/-- The measurement table. -/
abbrev Store := List Measurement

/-- The simulator settings returned by `get_sim_settings`. -/
structure SimConfig where
  interval_seconds : Nat
  daily_times : List String
  target_days : Nat
  enabled : Bool
  deriving DecidableEq, Repr

/-- The defaults in `get_sim_settings` / `settings.py`. -/
def defaultConfig : SimConfig :=
  { interval_seconds := 60
    daily_times := ["07:30", "16:30"]
    target_days := 365
    enabled := true }

/-- Timestamps of all stored rows. -/
def tsList (s : Store) : List Nat := s.map Measurement.ts

/-- `Measurement.objects.latest('ts')` (None when the table is empty). -/
def latestTs (s : Store) : Option Nat := (tsList s).max?

/-- `Measurement.objects.earliest('ts')` (None when the table is empty). -/
def earliestTs (s : Store) : Option Nat := (tsList s).min?

/-- `Measurement.objects.filter(ts=t).exists()`. -/
def existsAt (s : Store) (t : Nat) : Bool := s.any (fun m => m.ts == t)

/-- `Measurement.objects.filter(ts__gte=lo, ts__lt=hi)`. -/
def rowsInRange (s : Store) (lo hi : Nat) : Store :=
  s.filter (fun m => decide (lo ≤ m.ts) && decide (m.ts < hi))

/-- `Measurement.objects.filter(ts__gte=lo, ts__lt=hi).count()`. -/
def countInRange (s : Store) (lo hi : Nat) : Nat := (rowsInRange s lo hi).length

/-- `Measurement.objects.filter(ts__gte=lo, ts__lt=hi).delete()`:
the surviving table and the number of deleted rows. -/
def deleteInRange (s : Store) (lo hi : Nat) : Store × Nat :=
  (s.filter (fun m => !(decide (lo ≤ m.ts) && decide (m.ts < hi))),
   countInRange s lo hi)

/-- `_get_next_day`: midnight of the day after the latest reading's local
date, or midnight of 2025-01-01 when the table is empty. -/
def get_next_day (s : Store) : Nat :=
  match latestTs s with
  | some t => (t / minutesPerDay + 1) * minutesPerDay
  | none => bootstrapDay * minutesPerDay

/-- `str.split(':')` on the character list of the string (same result as
Python's `split` for the single-character separator used here). -/
def splitOnColon : List Char → List (List Char)
  | [] => [[]]
  | c :: cs =>
    if c = ':' then [] :: splitOnColon cs
    else match splitOnColon cs with
      | [] => [[c]]
      | p :: ps => (c :: p) :: ps

/-- Numeric value of a decimal digit string. -/
def digitsToNat (cs : List Char) : Nat :=
  cs.foldl (fun n c => n * 10 + (c.toNat - 48)) 0

/-- Python's `int(field)` for one clock-time field: a non-empty all-digit
field parses to its value, anything else raises `ValueError` (`none`).
(`int` also accepts signed/whitespace-padded input, but a negative or
padded value would in turn make `datetime.time` raise, so collapsing both
failure points into `none` preserves the observable behaviour.) -/
def parseIntField (cs : List Char) : Option Nat :=
  if cs ≠ [] ∧ cs.all (fun c => decide (48 ≤ c.toNat) && decide (c.toNat ≤ 57)) then
    some (digitsToNat cs)
  else none

/-- Parsing of one `"HH:MM"` entry of `SIM_DAILY_TIMES`.  The source runs
`hour, minute = map(int, time_str.split(':'))` and then builds
`datetime.time(hour, minute)`; a wrong number of `:`-separated fields, a
non-numeric field, or an out-of-range hour/minute all raise `ValueError`,
modelled as `none`. -/
def parseClockTime (str : String) : Option (Nat × Nat) :=
  match (splitOnColon str.data).map parseIntField with
  | [some h, some m] => if h < 24 ∧ m < 60 then some (h, m) else none
  | _ => none

/-- `round(x, d)` on exact rationals: nearest multiple of `10⁻ᵈ`. -/
def roundTo (d : Nat) (x : ℚ) : ℚ := ((round (x * 10 ^ d) : ℤ) : ℚ) / 10 ^ d

/-- `_generate_realistic_values`, parametrised by the two raw
`random.gauss` draws: clamp temperature to `[17.0, 19.5]`, clamp humidity
percentage to `[56.0, 65.0]`, divide by 100, round to 2 resp. 4 digits. -/
def generate_realistic_values (rawTemp rawHum : ℚ) : ℚ × ℚ :=
  let temp := max 17 (min (19.5 : ℚ) rawTemp)
  let humidity := max 56 (min (65 : ℚ) rawHum)
  let humidity_fraction := humidity / 100
  (roundTo 2 temp, roundTo 4 humidity_fraction)

/-- The row written by `Measurement.objects.create` in
`_insert_day_records`: min = max = current for both quantities. -/
def mkMeasurement (vals : ℚ × ℚ) (t : Nat) : Measurement :=
  ⟨t, vals.1, vals.1, vals.1, vals.2, vals.2, vals.2⟩

/-- Result of the `_insert_day_records` loop: the table after the loop,
the next raw-draw position, `inserted_count`, and whether the loop ran to
completion (`ok = false` models a `ValueError` escaping mid-loop; rows
already created stay in the table, see the module comment). -/
structure InsertResult where
  store : Store
  pos : Nat
  inserted : Nat
  ok : Bool
  deriving DecidableEq, Repr

/-- The `for time_str in daily_times` loop of `_insert_day_records`:
parse the entry, build the timestamp on day `dayDate`, skip if a row with
that exact timestamp exists, otherwise draw values and append a row. -/
def insert_day_records_loop (g : Nat → ℚ × ℚ) (dayDate : Nat) :
    List String → Store → Nat → Nat → InsertResult
  | [], s, pos, cnt => ⟨s, pos, cnt, true⟩
  | tstr :: rest, s, pos, cnt =>
    match parseClockTime tstr with
    | none => ⟨s, pos, cnt, false⟩
    | some (h, m) =>
      let t := dayDate * minutesPerDay + h * 60 + m
      if existsAt s t then
        insert_day_records_loop g dayDate rest s pos cnt
      else
        insert_day_records_loop g dayDate rest
          (s ++ [mkMeasurement (generate_realistic_values (g pos).1 (g pos).2) t])
          (pos + 1) (cnt + 1)

/-- `_insert_day_records(target_date)`: iterate the configured
`daily_times` over the local calendar date of `target_date`. -/
def insert_day_records (cfg : SimConfig) (g : Nat → ℚ × ℚ) (targetDate : Nat)
    (s : Store) (pos : Nat) : InsertResult :=
  insert_day_records_loop g (targetDate / minutesPerDay) cfg.daily_times s pos 0

/-- `_prune_oldest_day`: if the row count exceeds
`target_days * len(daily_times)`, delete every row of the earliest
reading's local calendar day (`[dayStart, dayStart + 24h)`); otherwise do
nothing.  Returns the new table and the deleted-row count. -/
def prune_oldest_day (cfg : SimConfig) (s : Store) : Store × Nat :=
  let max_records := cfg.target_days * cfg.daily_times.length
  if s.length ≤ max_records then (s, 0)
  else
    match earliestTs s with
    | none => (s, 0)  -- unreachable: `s.length > max_records` forces `s ≠ []`
    | some t =>
      let oldest_date := t / minutesPerDay
      let lo := oldest_date * minutesPerDay
      deleteInRange s lo (lo + minutesPerDay)

/-- Observable outcome of one `rotate_and_append_daily_measurements` call:
the committed table, the next raw-draw position, the boolean return value,
and (as ghost observations for the statements below) how many rows the
call inserted and deleted. -/
structure CycleResult where
  store : Store
  pos : Nat
  success : Bool
  inserted : Nat
  removed : Nat
  deriving DecidableEq, Repr

/-- `rotate_and_append_daily_measurements`: determine the target day,
return `True` untouched if that day already has rows, insert the day's
rows, fail if an entry raised (`ok = false` — the rows created before the
raise stay committed, see the module comment) or if nothing was inserted,
otherwise prune and return `True`. -/
def rotate_and_append_daily_measurements (cfg : SimConfig) (g : Nat → ℚ × ℚ)
    (s : Store) (pos : Nat) : CycleResult :=
  let next_day := get_next_day s
  let existing_count := countInRange s next_day (next_day + minutesPerDay)
  if 0 < existing_count then ⟨s, pos, true, 0, 0⟩
  else
    let r := insert_day_records cfg g next_day s pos
    if r.ok = false then ⟨r.store, r.pos, false, r.inserted, 0⟩
    else if r.inserted = 0 then ⟨r.store, r.pos, false, 0, 0⟩
    else
      let pr := prune_oldest_day cfg r.store
      ⟨pr.1, r.pos, true, r.inserted, pr.2⟩

/-- Events of the `_scheduler_worker` loop body, in execution order. -/
inductive WorkerEvent where
  | runCycle : WorkerEvent
  | sleep : Nat → WorkerEvent
  deriving DecidableEq, Repr

/-- `_scheduler_worker`: each `while _scheduler_running` iteration runs
the job (any exception is caught and logged inside the iteration) and then
sleeps `interval_seconds`.  The fuel argument counts how many times the
loop condition is observed true before the flag is cleared; the returned
trace records the loop's observable actions in order. -/
def scheduler_worker (cfg : SimConfig) (g : Nat → ℚ × ℚ) :
    Nat → Store × Nat → (Store × Nat) × List WorkerEvent
  | 0, st => (st, [])
  | n + 1, (s, pos) =>
    let r := rotate_and_append_daily_measurements cfg g s pos
    let rest := scheduler_worker cfg g n (r.store, r.pos)
    (rest.1, WorkerEvent.runCycle :: WorkerEvent.sleep cfg.interval_seconds :: rest.2)

/-- The module-level scheduler state: `_scheduler_running` plus, as a
ghost observation, how many worker threads have been spawned. -/
structure SchedulerState where
  running : Bool
  threads : Nat
  deriving DecidableEq, Repr

/-- `start_background_scheduler`.  The enabled check runs first; the
body from `with _scheduler_lock:` onwards executes under the module mutex,
so concurrent calls serialize and each call is one atomic step here. -/
def start_background_scheduler (cfg : SimConfig) (st : SchedulerState) :
    SchedulerState × Bool :=
  if cfg.enabled = false then (st, false)
  else if st.running then (st, false)
  else ({ running := true, threads := st.threads + 1 }, true)

/-- `stop_background_scheduler` (under the same mutex). -/
def stop_background_scheduler (st : SchedulerState) : SchedulerState × Bool :=
  if st.running = false then (st, false)
  else ({ st with running := false }, true)

/-- `is_scheduler_running`: lock-free read of the flag. -/
def is_scheduler_running (st : SchedulerState) : Bool := st.running

/-- The (store, raw-draw position) state after `n` back-to-back cycle
invocations starting from an empty table. -/
def cycle_state (cfg : SimConfig) (g : Nat → ℚ × ℚ) : Nat → Store × Nat
  | 0 => ([], 0)
  | n + 1 =>
    let st := cycle_state cfg g n
    let r := rotate_and_append_daily_measurements cfg g st.1 st.2
    (r.store, r.pos)

/-- Minute offset within its day of a parsed `(hour, minute)` pair. -/
def timeOffset (p : Nat × Nat) : Nat := p.1 * 60 + p.2

/-- The rows the `_insert_day_records` loop appends for calendar day `day`
when the table has no row on that day yet: one per parsed clock time, raw
values drawn at positions `pos, pos + 1, …`. -/
def canonicalDayRows (g : Nat → ℚ × ℚ) (day : Nat) :
    List (Nat × Nat) → Nat → Store
  | [], _ => []
  | p :: rest, pos =>
    mkMeasurement (generate_realistic_values (g pos).1 (g pos).2)
        (day * minutesPerDay + timeOffset p) ::
      canonicalDayRows g day rest (pos + 1)

/-- The table contents after a run of successful cycles from an empty
store: the rows of calendar days `bootstrapDay + lo, …,
bootstrapDay + lo + len - 1`, day `bootstrapDay + j` having been inserted
by cycle `j + 1` with raw-draw positions starting at `j * k`. -/
def canonicalWindow (g : Nat → ℚ × ℚ) (tms : List (Nat × Nat)) :
    Nat → Nat → Store
  | _, 0 => []
  | lo, len + 1 =>
    canonicalDayRows g (bootstrapDay + lo) tms (lo * tms.length) ++
      canonicalWindow g tms (lo + 1) len

end Monitoring

namespace Monitoring

/-! ### Helper lemmas -/

theorem le_round_of_le {z : ℤ} {x : ℚ} (h : (z : ℚ) ≤ x) : z ≤ round x := by
  rw [round_eq, Int.le_floor]
  linarith

theorem round_le_of_le {z : ℤ} {x : ℚ} (h : x ≤ (z : ℚ)) : round x ≤ z := by
  have hlt : round x < z + 1 := by
    rw [round_eq, Int.floor_lt]
    push_cast
    linarith
  omega

theorem mem_day_range_iff {D t : Nat} :
    (D * minutesPerDay ≤ t ∧ t < D * minutesPerDay + minutesPerDay) ↔
      t / minutesPerDay = D := by
  unfold minutesPerDay
  omega

theorem countInRange_pos_iff {s : Store} {lo hi : Nat} :
    0 < countInRange s lo hi ↔ ∃ m ∈ s, lo ≤ m.ts ∧ m.ts < hi := by
  unfold countInRange rowsInRange
  rw [List.length_pos, Ne, List.filter_eq_nil_iff]
  push_neg
  simp

theorem countInRange_eq_zero_iff {s : Store} {lo hi : Nat} :
    countInRange s lo hi = 0 ↔ ∀ m ∈ s, ¬(lo ≤ m.ts ∧ m.ts < hi) := by
  unfold countInRange rowsInRange
  rw [List.length_eq_zero, List.filter_eq_nil_iff]
  simp

theorem rotate_of_guard {cfg : SimConfig} {g : Nat → ℚ × ℚ} {s : Store} {pos : Nat}
    (h : 0 < countInRange s (get_next_day s) (get_next_day s + minutesPerDay)) :
    rotate_and_append_daily_measurements cfg g s pos = ⟨s, pos, true, 0, 0⟩ := by
  unfold rotate_and_append_daily_measurements
  rw [if_pos h]

end Monitoring

namespace Monitoring

/-- C8: every reading produced by the Value Generator has its temperature
in the clamp range `[17.0, 19.5]` and its humidity fraction in
`[56/100, 65/100]` (the clamped percentage divided by 100), for every
possible pair of raw draws from the random source. -/
theorem generator_value_bounds (rawTemp rawHum : ℚ) :
    17 ≤ (generate_realistic_values rawTemp rawHum).1 ∧
      (generate_realistic_values rawTemp rawHum).1 ≤ 19.5 ∧
      56 / 100 ≤ (generate_realistic_values rawTemp rawHum).2 ∧
      (generate_realistic_values rawTemp rawHum).2 ≤ 65 / 100 := by
  have ht1 : (17 : ℚ) ≤ max 17 (min (19.5 : ℚ) rawTemp) := le_max_left _ _
  have ht2 : max 17 (min (19.5 : ℚ) rawTemp) ≤ 19.5 :=
    max_le (by norm_num) (min_le_left _ _)
  have hu1 : (56 : ℚ) ≤ max 56 (min (65 : ℚ) rawHum) := le_max_left _ _
  have hu2 : max 56 (min (65 : ℚ) rawHum) ≤ 65 :=
    max_le (by norm_num) (min_le_left _ _)
  have hr1 : (1700 : ℤ) ≤ round (max 17 (min (19.5 : ℚ) rawTemp) * 10 ^ 2) :=
    le_round_of_le (by push_cast; linarith)
  have hr2 : round (max 17 (min (19.5 : ℚ) rawTemp) * 10 ^ 2) ≤ (1950 : ℤ) :=
    round_le_of_le (by push_cast; linarith)
  have hs1 : (5600 : ℤ) ≤ round (max 56 (min (65 : ℚ) rawHum) / 100 * 10 ^ 4) :=
    le_round_of_le (by push_cast; linarith)
  have hs2 : round (max 56 (min (65 : ℚ) rawHum) / 100 * 10 ^ 4) ≤ (6500 : ℤ) :=
    round_le_of_le (by push_cast; linarith)
  have hc1 : ((1700 : ℤ) : ℚ) ≤ _ := Int.cast_le.mpr hr1
  have hc2 : (_ : ℚ) ≤ ((1950 : ℤ) : ℚ) := Int.cast_le.mpr hr2
  have hc3 : ((5600 : ℤ) : ℚ) ≤ _ := Int.cast_le.mpr hs1
  have hc4 : (_ : ℚ) ≤ ((6500 : ℤ) : ℚ) := Int.cast_le.mpr hs2
  refine ⟨?_, ?_, ?_, ?_⟩
  · show (17 : ℚ) ≤ roundTo 2 (max 17 (min (19.5 : ℚ) rawTemp))
    rw [roundTo, le_div_iff (by norm_num : (0:ℚ) < 10 ^ 2)]
    push_cast at hc1 ⊢
    linarith
  · show roundTo 2 (max 17 (min (19.5 : ℚ) rawTemp)) ≤ (19.5 : ℚ)
    rw [roundTo, div_le_iff (by norm_num : (0:ℚ) < 10 ^ 2)]
    push_cast at hc2 ⊢
    linarith
  · show (56 / 100 : ℚ) ≤ roundTo 4 (max 56 (min (65 : ℚ) rawHum) / 100)
    rw [roundTo, div_le_div_iff (by norm_num) (by norm_num : (0:ℚ) < 10 ^ 4)]
    push_cast at hc3 ⊢
    linarith
  · show roundTo 4 (max 56 (min (65 : ℚ) rawHum) / 100) ≤ (65 / 100 : ℚ)
    rw [roundTo, div_le_div_iff (by norm_num : (0:ℚ) < 10 ^ 4) (by norm_num)]
    push_cast at hc4 ⊢
    linarith

end Monitoring

namespace Monitoring

theorem get_next_day_is_midnight (s : Store) :
    ∃ D, get_next_day s = D * minutesPerDay := by
  unfold get_next_day
  cases latestTs s with
  | none => exact ⟨bootstrapDay, rfl⟩
  | some t => exact ⟨t / minutesPerDay + 1, rfl⟩

/-- C2 counterexample: from an empty store with the default configuration,
the first `runCycle` inserts 2 readings (count 2); the immediate second
call returns `true` but inserts 2 further readings and raises the count to
4 — not the zero insertions / unchanged count the claim states. -/
theorem immediate_second_cycle_counterexample :
    (rotate_and_append_daily_measurements defaultConfig
        (fun _ => ((0:ℚ), (0:ℚ))) [] 0).store.length = 2 ∧
    (rotate_and_append_daily_measurements defaultConfig (fun _ => ((0:ℚ), (0:ℚ)))
        (rotate_and_append_daily_measurements defaultConfig
          (fun _ => ((0:ℚ), (0:ℚ))) [] 0).store
        (rotate_and_append_daily_measurements defaultConfig
          (fun _ => ((0:ℚ), (0:ℚ))) [] 0).pos).success = true ∧
    (rotate_and_append_daily_measurements defaultConfig (fun _ => ((0:ℚ), (0:ℚ)))
        (rotate_and_append_daily_measurements defaultConfig
          (fun _ => ((0:ℚ), (0:ℚ))) [] 0).store
        (rotate_and_append_daily_measurements defaultConfig
          (fun _ => ((0:ℚ), (0:ℚ))) [] 0).pos).inserted ≠ 0 ∧
    (rotate_and_append_daily_measurements defaultConfig (fun _ => ((0:ℚ), (0:ℚ)))
        (rotate_and_append_daily_measurements defaultConfig
          (fun _ => ((0:ℚ), (0:ℚ))) [] 0).store
        (rotate_and_append_daily_measurements defaultConfig
          (fun _ => ((0:ℚ), (0:ℚ))) [] 0).pos).store.length = 4 := by
  decide

/-- C3 (code bug): with `dailyTimes = ["07:30", "7:xx"]` on an empty
store, the first entry's reading is created, then parsing `"7:xx"` raises;
the `except` inside `rotate_and_append_daily_measurements` swallows the
error within the `@transaction.atomic` scope, so the transaction commits
the partial day: the cycle returns `false` yet one row remains. -/
theorem failed_cycle_commits_partial_day :
    (rotate_and_append_daily_measurements
        { interval_seconds := 60, daily_times := ["07:30", "7:xx"],
          target_days := 365, enabled := true }
        (fun _ => ((0:ℚ), (0:ℚ))) [] 0).success = false ∧
    (rotate_and_append_daily_measurements
        { interval_seconds := 60, daily_times := ["07:30", "7:xx"],
          target_days := 365, enabled := true }
        (fun _ => ((0:ℚ), (0:ℚ))) [] 0).store.length = 1 ∧
    (rotate_and_append_daily_measurements
        { interval_seconds := 60, daily_times := ["07:30", "7:xx"],
          target_days := 365, enabled := true }
        (fun _ => ((0:ℚ), (0:ℚ))) [] 0).store ≠ [] := by
  decide

end Monitoring

namespace Monitoring

/-- C7 (code bug): `dailyTimes = ["16:30", "7:xx"]` contains an
unparsable entry, and on an empty store the cycle does return `false` —
but the store is mutated: the `"16:30"` reading created before the parse
error stays committed (the `except` catches the `ValueError` inside the
`@transaction.atomic` scope), so the mutation count is 1, not the 0 the
claim requires. -/
theorem malformed_entry_commits_inserted_row :
    (rotate_and_append_daily_measurements
        { interval_seconds := 60, daily_times := ["16:30", "7:xx"],
          target_days := 365, enabled := true }
        (fun _ => ((0:ℚ), (0:ℚ))) [] 0).success = false ∧
    (rotate_and_append_daily_measurements
        { interval_seconds := 60, daily_times := ["16:30", "7:xx"],
          target_days := 365, enabled := true }
        (fun _ => ((0:ℚ), (0:ℚ))) [] 0).store.length = 1 := by
  decide

/-- Scenario D as a general lemma: if the *first* `dailyTimes` entry is
unparsable and no stored reading's local date equals the target day,
`runCycle` returns `false` with zero store mutations (readings inserted
for parsable entries preceding an unparsable one, by contrast, stay
committed — see the C7 record). -/
theorem unparsable_first_entry_aborts_cleanly (cfg : SimConfig)
    (g : Nat → ℚ × ℚ) (s : Store) (pos : Nat) (tstr : String)
    (rest : List String) (hdt : cfg.daily_times = tstr :: rest)
    (hpar : parseClockTime tstr = none)
    (hguard : countInRange s (get_next_day s) (get_next_day s + minutesPerDay) = 0) :
    rotate_and_append_daily_measurements cfg g s pos = ⟨s, pos, false, 0, 0⟩ := by
  unfold rotate_and_append_daily_measurements
  rw [if_neg (by omega)]
  unfold insert_day_records
  rw [hdt]
  unfold insert_day_records_loop
  rw [hpar]
  rfl

/-- Witness for `unparsable_first_entry_aborts_cleanly`: Scenario D,
`dailyTimes = ["7:xx"]` on an empty store. -/
theorem unparsable_first_entry_witness :
    rotate_and_append_daily_measurements
        { interval_seconds := 60, daily_times := ["7:xx"],
          target_days := 365, enabled := true }
        (fun _ => ((0:ℚ), (0:ℚ))) [] 0 = ⟨[], 0, false, 0, 0⟩ :=
  unparsable_first_entry_aborts_cleanly _ _ _ _ "7:xx" [] rfl (by decide) (by decide)

/-- C10: with an empty `dailyTimes` list, a cycle on a store having no
readings for the target day inserts nothing, leaves the store unchanged,
and returns `false` (a zero insertion count is treated as failure). -/
theorem empty_daily_times_cycle_fails (cfg : SimConfig) (g : Nat → ℚ × ℚ)
    (s : Store) (pos : Nat) (hdt : cfg.daily_times = [])
    (hguard : countInRange s (get_next_day s) (get_next_day s + minutesPerDay) = 0) :
    rotate_and_append_daily_measurements cfg g s pos = ⟨s, pos, false, 0, 0⟩ := by
  unfold rotate_and_append_daily_measurements
  rw [if_neg (by omega)]
  unfold insert_day_records
  rw [hdt]
  unfold insert_day_records_loop
  rfl

/-- Witness for `empty_daily_times_cycle_fails`: empty config list on an
empty store. -/
theorem empty_daily_times_witness :
    rotate_and_append_daily_measurements
        { interval_seconds := 60, daily_times := [],
          target_days := 365, enabled := true }
        (fun _ => ((0:ℚ), (0:ℚ))) [] 0 = ⟨[], 0, false, 0, 0⟩ :=
  empty_daily_times_cycle_fails _ _ _ _ rfl (by decide)

/-- C6 counterexample: one observed-true tick of the worker loop produces
the trace (runCycle, sleep 60) — the job executes *before* the sleep, not
after it as the claim states. -/
theorem worker_sleep_order_counterexample :
    (scheduler_worker defaultConfig (fun _ => ((0:ℚ), (0:ℚ))) 1 ([], 0)).2 =
        [WorkerEvent.runCycle, WorkerEvent.sleep 60] ∧
    (scheduler_worker defaultConfig (fun _ => ((0:ℚ), (0:ℚ))) 1 ([], 0)).2 ≠
        [WorkerEvent.sleep 60, WorkerEvent.runCycle] := by
  decide

/-- C6 (amended): in every iteration while the running flag is set, the
worker first invokes `runCycle` and then sleeps `intervalSeconds`; cycle
failures are caught and never terminate the loop, so `n` observed-true
ticks always produce exactly `n` (cycle, sleep) pairs, whatever the cycle
outcomes and the starting state. -/
theorem worker_runs_cycle_then_sleeps (cfg : SimConfig) (g : Nat → ℚ × ℚ)
    (n : Nat) (st : Store × Nat) :
    (scheduler_worker cfg g n st).2 =
      (List.replicate n
        [WorkerEvent.runCycle, WorkerEvent.sleep cfg.interval_seconds]).flatten := by
  induction n generalizing st with
  | zero => rfl
  | succ k ih =>
    obtain ⟨s, pos⟩ := st
    simp only [scheduler_worker, List.replicate_succ, List.flatten_cons]
    rw [ih]
    rfl

/-- C9: two `start()` calls on a stopped, enabled controller — the bodies
serialize under `_scheduler_lock`, and both serialization orders of two
identical calls coincide — yield exactly one `true` (the first) and one
`false` (the second); afterwards `isRunning()` is `true` and exactly one
worker thread has been spawned. -/
theorem concurrent_start_exclusive (cfg : SimConfig) (st0 : SchedulerState)
    (hen : cfg.enabled = true) (hstop : st0.running = false) :
    (start_background_scheduler cfg st0).2 = true ∧
    (start_background_scheduler cfg (start_background_scheduler cfg st0).1).2 = false ∧
    is_scheduler_running
      (start_background_scheduler cfg (start_background_scheduler cfg st0).1).1 = true ∧
    (start_background_scheduler cfg
        (start_background_scheduler cfg st0).1).1.threads = st0.threads + 1 := by
  simp [start_background_scheduler, is_scheduler_running, hen, hstop]

/-- Witness for `concurrent_start_exclusive`: default (enabled) config,
stopped controller with no threads. -/
theorem concurrent_start_exclusive_witness :
    (start_background_scheduler defaultConfig ⟨false, 0⟩).2 = true ∧
    (start_background_scheduler defaultConfig
      (start_background_scheduler defaultConfig ⟨false, 0⟩).1).2 = false ∧
    is_scheduler_running
      (start_background_scheduler defaultConfig
        (start_background_scheduler defaultConfig ⟨false, 0⟩).1).1 = true ∧
    (start_background_scheduler defaultConfig
        (start_background_scheduler defaultConfig ⟨false, 0⟩).1).1.threads = 0 + 1 :=
  concurrent_start_exclusive defaultConfig ⟨false, 0⟩ rfl rfl

end Monitoring

namespace Monitoring

theorem parseClockTime_valid {str : String} {p : Nat × Nat}
    (h : parseClockTime str = some p) : p.1 < 24 ∧ p.2 < 60 := by
  unfold parseClockTime at h
  split at h
  · rename_i heq
    split at h
    · rename_i hrange
      cases h
      exact hrange
    · cases h
  · cases h

theorem timeOffset_lt_of_parse {str : String} {p : Nat × Nat}
    (h : parseClockTime str = some p) : timeOffset p < minutesPerDay := by
  obtain ⟨h1, h2⟩ := parseClockTime_valid h
  unfold timeOffset minutesPerDay
  omega

theorem timeOffset_lt_of_mem {tss : List String} {tms : List (Nat × Nat)}
    (hpt : tss.map parseClockTime = tms.map some) :
    ∀ p ∈ tms, timeOffset p < minutesPerDay := by
  intro p hp
  have : some p ∈ tss.map parseClockTime := by
    rw [hpt]
    exact List.mem_map_of_mem _ hp
  obtain ⟨str, _, hstr⟩ := List.mem_map.mp this
  exact timeOffset_lt_of_parse hstr

theorem existsAt_eq_false_of_lt {s : Store} {t : Nat}
    (h : ∀ m ∈ s, m.ts < t) : existsAt s t = false := by
  unfold existsAt
  rw [List.any_eq_false]
  intro m hm
  simp [Nat.ne_of_lt (h m hm)]

theorem canonicalDayRows_length (g : Nat → ℚ × ℚ) (day : Nat)
    (tms : List (Nat × Nat)) (pos : Nat) :
    (canonicalDayRows g day tms pos).length = tms.length := by
  induction tms generalizing pos with
  | nil => rfl
  | cons p rest ih => simp [canonicalDayRows, ih]

theorem canonicalDayRows_ts {g : Nat → ℚ × ℚ} {day : Nat}
    {tms : List (Nat × Nat)} (hv : ∀ p ∈ tms, timeOffset p < minutesPerDay) :
    ∀ {pos : Nat}, ∀ m ∈ canonicalDayRows g day tms pos,
      day * minutesPerDay ≤ m.ts ∧ m.ts < (day + 1) * minutesPerDay := by
  induction tms with
  | nil => intro pos m hm; cases hm
  | cons p rest ih =>
    intro pos m hm
    rcases List.mem_cons.mp hm with rfl | hm
    · have hoff : timeOffset p < minutesPerDay := hv p (List.mem_cons_self _ _)
      simp only [mkMeasurement]
      constructor
      · exact Nat.le_add_right _ _
      · have : (day + 1) * minutesPerDay = day * minutesPerDay + minutesPerDay :=
          Nat.succ_mul day minutesPerDay
        omega
    · exact ih (fun q hq => hv q (List.mem_cons_of_mem _ hq)) m hm

theorem canonicalDayRows_date {g : Nat → ℚ × ℚ} {day : Nat}
    {tms : List (Nat × Nat)} (hv : ∀ p ∈ tms, timeOffset p < minutesPerDay)
    {pos : Nat} : ∀ m ∈ canonicalDayRows g day tms pos,
      m.ts / minutesPerDay = day := by
  intro m hm
  have h := canonicalDayRows_ts hv m hm
  have : (day + 1) * minutesPerDay = day * minutesPerDay + minutesPerDay :=
    Nat.succ_mul day minutesPerDay
  exact mem_day_range_iff.mp ⟨h.1, by omega⟩

theorem canonicalDayRows_exists_ge (g : Nat → ℚ × ℚ) (day pos : Nat)
    {tms : List (Nat × Nat)} (h : tms ≠ []) :
    ∃ m ∈ canonicalDayRows g day tms pos, day * minutesPerDay ≤ m.ts := by
  cases tms with
  | nil => exact absurd rfl h
  | cons p rest =>
    refine ⟨_, List.mem_cons_self _ _, ?_⟩
    simp only [mkMeasurement]
    exact Nat.le_add_right _ _

theorem canonicalWindow_length (g : Nat → ℚ × ℚ) (tms : List (Nat × Nat)) :
    ∀ len lo, (canonicalWindow g tms lo len).length = len * tms.length := by
  intro len
  induction len with
  | zero => intro lo; simp [canonicalWindow]
  | succ k ih =>
    intro lo
    simp only [canonicalWindow, List.length_append, canonicalDayRows_length, ih,
      Nat.succ_mul]
    omega

theorem canonicalWindow_ts {g : Nat → ℚ × ℚ} {tms : List (Nat × Nat)}
    (hv : ∀ p ∈ tms, timeOffset p < minutesPerDay) :
    ∀ {len lo}, ∀ m ∈ canonicalWindow g tms lo len,
      (bootstrapDay + lo) * minutesPerDay ≤ m.ts ∧
        m.ts < (bootstrapDay + lo + len) * minutesPerDay := by
  intro len
  induction len with
  | zero => intro lo m hm; cases hm
  | succ k ih =>
    intro lo m hm
    rcases List.mem_append.mp hm with hm | hm
    · have h := canonicalDayRows_ts hv m hm
      refine ⟨h.1, lt_of_lt_of_le h.2 ?_⟩
      apply Nat.mul_le_mul_right
      omega
    · have h := ih m hm
      constructor
      · refine le_trans ?_ h.1
        apply Nat.mul_le_mul_right
        omega
      · have : bootstrapDay + (lo + 1) + k = bootstrapDay + lo + (k + 1) := by omega
        rw [this] at h
        exact h.2

theorem canonicalWindow_snoc (g : Nat → ℚ × ℚ) (tms : List (Nat × Nat)) :
    ∀ len lo, canonicalWindow g tms lo (len + 1) =
      canonicalWindow g tms lo len ++
        canonicalDayRows g (bootstrapDay + (lo + len)) tms ((lo + len) * tms.length) := by
  intro len
  induction len with
  | zero =>
    intro lo
    simp [canonicalWindow]
  | succ k ih =>
    intro lo
    rw [show canonicalWindow g tms lo (k + 1 + 1) =
      canonicalDayRows g (bootstrapDay + lo) tms (lo * tms.length) ++
        canonicalWindow g tms (lo + 1) (k + 1) from rfl]
    rw [ih (lo + 1)]
    rw [show canonicalWindow g tms lo (k + 1) =
      canonicalDayRows g (bootstrapDay + lo) tms (lo * tms.length) ++
        canonicalWindow g tms (lo + 1) k from rfl]
    rw [List.append_assoc]
    have : lo + 1 + k = lo + (k + 1) := by omega
    rw [this]

end Monitoring

namespace Monitoring

theorem get_next_day_of_bounds {s : Store} {dayLast : Nat}
    (hne : ∃ m ∈ s, dayLast * minutesPerDay ≤ m.ts)
    (hub : ∀ m ∈ s, m.ts < (dayLast + 1) * minutesPerDay) :
    get_next_day s = (dayLast + 1) * minutesPerDay := by
  obtain ⟨m0, hm0, hlb⟩ := hne
  cases ht : latestTs s with
  | none =>
    exfalso
    unfold latestTs at ht
    rw [List.max?_eq_none_iff] at ht
    have hmem : m0.ts ∈ tsList s := List.mem_map_of_mem _ hm0
    rw [ht] at hmem
    cases hmem
  | some t =>
    have ht' := ht
    unfold latestTs at ht'
    rw [List.max?_eq_some_iff'] at ht'
    obtain ⟨htmem, hmax⟩ := ht'
    obtain ⟨m1, hm1, hts⟩ := List.mem_map.mp htmem
    have h1 : dayLast * minutesPerDay ≤ t :=
      le_trans hlb (hmax _ (List.mem_map_of_mem _ hm0))
    have h2 : t < (dayLast + 1) * minutesPerDay := by
      rw [← hts]
      exact hub m1 hm1
    unfold get_next_day
    rw [ht]
    have hd : t / minutesPerDay = dayLast := by
      have hm : (dayLast + 1) * minutesPerDay = dayLast * minutesPerDay + minutesPerDay :=
        Nat.succ_mul dayLast minutesPerDay
      exact mem_day_range_iff.mp ⟨h1, by omega⟩
    show (t / minutesPerDay + 1) * minutesPerDay = (dayLast + 1) * minutesPerDay
    rw [hd]

theorem countInRange_day_zero {s : Store} {D : Nat}
    (h : ∀ m ∈ s, m.ts < D * minutesPerDay) :
    countInRange s (D * minutesPerDay) (D * minutesPerDay + minutesPerDay) = 0 :=
  countInRange_eq_zero_iff.mpr (fun m hm => by have := h m hm; omega)

theorem insert_loop_appends (g : Nat → ℚ × ℚ) (dayDate : Nat) :
    ∀ (tss : List String) (tms : List (Nat × Nat)) (s : Store) (pos cnt : Nat),
      tss.map parseClockTime = tms.map some →
      (tms.map timeOffset).Nodup →
      (∀ p ∈ tms, existsAt s (dayDate * minutesPerDay + timeOffset p) = false) →
      insert_day_records_loop g dayDate tss s pos cnt =
        ⟨s ++ canonicalDayRows g dayDate tms pos, pos + tms.length,
         cnt + tms.length, true⟩ := by
  intro tss
  induction tss with
  | nil =>
    intro tms s pos cnt hpt _ _
    have htms : tms = [] := by
      cases tms with
      | nil => rfl
      | cons a b => simp at hpt
    subst htms
    simp [insert_day_records_loop, canonicalDayRows]
  | cons tstr rest ih =>
    intro tms s pos cnt hpt hnd hnew
    cases tms with
    | nil => simp at hpt
    | cons p tms' =>
      simp only [List.map_cons, List.cons.injEq] at hpt
      obtain ⟨hp, hrest⟩ := hpt
      obtain ⟨ph, pm⟩ := p
      have htoff : dayDate * minutesPerDay + ph * 60 + pm =
          dayDate * minutesPerDay + timeOffset (ph, pm) := by
        unfold timeOffset
        omega
      rw [List.map_cons, List.nodup_cons] at hnd
      obtain ⟨hnmem, hnd'⟩ := hnd
      unfold insert_day_records_loop
      rw [hp]
      simp only
      rw [htoff]
      have hex : existsAt s (dayDate * minutesPerDay + timeOffset (ph, pm)) = false :=
        hnew _ (List.mem_cons_self _ _)
      rw [hex]
      simp only [Bool.false_eq_true, if_false]
      have hnew' : ∀ q ∈ tms',
          existsAt
            (s ++ [mkMeasurement (generate_realistic_values (g pos).1 (g pos).2)
              (dayDate * minutesPerDay + timeOffset (ph, pm))])
            (dayDate * minutesPerDay + timeOffset q) = false := by
        intro q hq
        unfold existsAt
        rw [List.any_append]
        have h1 : existsAt s (dayDate * minutesPerDay + timeOffset q) = false :=
          hnew q (List.mem_cons_of_mem _ hq)
        unfold existsAt at h1
        rw [h1]
        simp only [Bool.false_or, List.any_cons, List.any_nil, Bool.or_false,
          mkMeasurement]
        have : timeOffset (ph, pm) ≠ timeOffset q := by
          intro hcontra
          exact hnmem (hcontra ▸ List.mem_map_of_mem _ hq)
        simp only [beq_eq_false_iff_ne, ne_eq]
        omega
      rw [ih tms' _ (pos + 1) (cnt + 1) hrest hnd' hnew']
      have hlen : ((ph, pm) :: tms').length = tms'.length + 1 := rfl
      congr 1
      · rw [List.append_assoc]
        rfl
      · rw [hlen]
        omega
      · rw [hlen]
        omega

end Monitoring

namespace Monitoring

theorem prune_noop {cfg : SimConfig} {s : Store}
    (h : s.length ≤ cfg.target_days * cfg.daily_times.length) :
    prune_oldest_day cfg s = (s, 0) := by
  unfold prune_oldest_day
  rw [if_pos h]

theorem prune_removes_oldest_block (cfg : SimConfig) (oldRows rest : Store)
    (day0 : Nat) (h1 : oldRows ≠ [])
    (h2 : ∀ m ∈ oldRows,
      day0 * minutesPerDay ≤ m.ts ∧ m.ts < day0 * minutesPerDay + minutesPerDay)
    (h3 : ∀ m ∈ rest, day0 * minutesPerDay + minutesPerDay ≤ m.ts)
    (h4 : cfg.target_days * cfg.daily_times.length < (oldRows ++ rest).length) :
    prune_oldest_day cfg (oldRows ++ rest) = (rest, oldRows.length) := by
  have hne : tsList (oldRows ++ rest) ≠ [] := by
    cases oldRows with
    | nil => exact absurd rfl h1
    | cons a l => simp [tsList]
  cases ht : earliestTs (oldRows ++ rest) with
  | none =>
    exfalso
    unfold earliestTs at ht
    rw [List.min?_eq_none_iff] at ht
    exact hne ht
  | some t0 =>
    have ht' := ht
    unfold earliestTs at ht'
    rw [List.min?_eq_some_iff'] at ht'
    obtain ⟨hmem, hminle⟩ := ht'
    obtain ⟨m0, hm0, hts0⟩ := List.mem_map.mp hmem
    have hlb : day0 * minutesPerDay ≤ t0 := by
      rw [← hts0]
      rcases List.mem_append.mp hm0 with h | h
      · exact (h2 m0 h).1
      · have := h3 m0 h
        omega
    have hub : t0 < day0 * minutesPerDay + minutesPerDay := by
      cases oldRows with
      | nil => exact absurd rfl h1
      | cons a l =>
        have hale : t0 ≤ a.ts := hminle a.ts (by simp [tsList])
        have := (h2 a (List.mem_cons_self _ _)).2
        omega
    have hd0 : t0 / minutesPerDay = day0 := mem_day_range_iff.mp ⟨hlb, hub⟩
    unfold prune_oldest_day
    rw [if_neg (by omega), ht]
    show deleteInRange (oldRows ++ rest) (t0 / minutesPerDay * minutesPerDay)
        (t0 / minutesPerDay * minutesPerDay + minutesPerDay) = (rest, oldRows.length)
    rw [hd0]
    unfold deleteInRange countInRange rowsInRange
    rw [List.filter_append, List.filter_append]
    have hfo : oldRows.filter (fun m =>
        !(decide (day0 * minutesPerDay ≤ m.ts) &&
          decide (m.ts < day0 * minutesPerDay + minutesPerDay))) = [] := by
      rw [List.filter_eq_nil_iff]
      intro m hm
      have := h2 m hm
      simp [this.1, this.2]
    have hfr : rest.filter (fun m =>
        !(decide (day0 * minutesPerDay ≤ m.ts) &&
          decide (m.ts < day0 * minutesPerDay + minutesPerDay))) = rest := by
      rw [List.filter_eq_self]
      intro m hm
      have := h3 m hm
      simp
      omega
    have hco : oldRows.filter (fun m =>
        decide (day0 * minutesPerDay ≤ m.ts) &&
          decide (m.ts < day0 * minutesPerDay + minutesPerDay)) = oldRows := by
      rw [List.filter_eq_self]
      intro m hm
      have := h2 m hm
      simp [this.1, this.2]
    have hcr : rest.filter (fun m =>
        decide (day0 * minutesPerDay ≤ m.ts) &&
          decide (m.ts < day0 * minutesPerDay + minutesPerDay)) = [] := by
      rw [List.filter_eq_nil_iff]
      intro m hm
      have := h3 m hm
      simp
      omega
    rw [hfo, hfr, hco, hcr]
    simp

theorem rotate_unfold (cfg : SimConfig) (g : Nat → ℚ × ℚ) (s : Store) (pos : Nat)
    (h : countInRange s (get_next_day s) (get_next_day s + minutesPerDay) = 0)
    (r : InsertResult) (hr : insert_day_records cfg g (get_next_day s) s pos = r) :
    rotate_and_append_daily_measurements cfg g s pos =
      if r.ok = false then ⟨r.store, r.pos, false, r.inserted, 0⟩
      else if r.inserted = 0 then ⟨r.store, r.pos, false, 0, 0⟩
      else ⟨(prune_oldest_day cfg r.store).1, r.pos, true, r.inserted,
            (prune_oldest_day cfg r.store).2⟩ := by
  unfold rotate_and_append_daily_measurements
  rw [if_neg (by omega), hr]

theorem rotate_inserts_fresh_day (cfg : SimConfig) (g : Nat → ℚ × ℚ)
    (tms : List (Nat × Nat))
    (hpt : cfg.daily_times.map parseClockTime = tms.map some)
    (hnd : (tms.map timeOffset).Nodup)
    (hk : tms ≠ []) {s : Store} {pos D : Nat}
    (hD : get_next_day s = D * minutesPerDay)
    (hlt : ∀ m ∈ s, m.ts < D * minutesPerDay) :
    rotate_and_append_daily_measurements cfg g s pos =
      ⟨(prune_oldest_day cfg (s ++ canonicalDayRows g D tms pos)).1,
       pos + tms.length, true, tms.length,
       (prune_oldest_day cfg (s ++ canonicalDayRows g D tms pos)).2⟩ := by
  have hk0 : tms.length ≠ 0 := fun hc => hk (List.length_eq_zero.mp hc)
  have hguard : countInRange s (get_next_day s) (get_next_day s + minutesPerDay) = 0 := by
    rw [hD]
    exact countInRange_day_zero hlt
  have hnew : ∀ p ∈ tms,
      existsAt s (D * minutesPerDay + timeOffset p) = false := fun p _ =>
    existsAt_eq_false_of_lt (fun m hm =>
      lt_of_lt_of_le (hlt m hm) (Nat.le_add_right _ _))
  have hinsert : insert_day_records cfg g (get_next_day s) s pos =
      ⟨s ++ canonicalDayRows g D tms pos, pos + tms.length, tms.length, true⟩ := by
    rw [hD]
    unfold insert_day_records
    rw [Nat.mul_div_cancel D (by norm_num [minutesPerDay])]
    rw [insert_loop_appends g D cfg.daily_times tms s pos 0 hpt hnd hnew]
    rw [Nat.zero_add]
  rw [rotate_unfold cfg g s pos hguard _ hinsert]
  rw [if_neg (by simp)]
  rw [if_neg (by simpa using hk0)]

end Monitoring

namespace Monitoring

theorem canonicalWindow_cons (g : Nat → ℚ × ℚ) (tms : List (Nat × Nat))
    (lo len : Nat) (h : 0 < len) :
    canonicalWindow g tms lo len =
      canonicalDayRows g (bootstrapDay + lo) tms (lo * tms.length) ++
        canonicalWindow g tms (lo + 1) (len - 1) := by
  cases len with
  | zero => omega
  | succ k => rfl

theorem canonicalDayRows_ne_nil {g : Nat → ℚ × ℚ} {day pos : Nat}
    {tms : List (Nat × Nat)} (h : tms ≠ []) :
    canonicalDayRows g day tms pos ≠ [] := by
  have hl : 0 < (canonicalDayRows g day tms pos).length := by
    rw [canonicalDayRows_length]
    exact List.length_pos.mpr h
  exact List.length_pos.mp hl

theorem rotate_at_canonical (cfg : SimConfig) (g : Nat → ℚ × ℚ)
    (tms : List (Nat × Nat))
    (hpt : cfg.daily_times.map parseClockTime = tms.map some)
    (hnd : (tms.map timeOffset).Nodup)
    (hk : tms ≠ []) (n : Nat) :
    rotate_and_append_daily_measurements cfg g
        (canonicalWindow g tms (n - min n cfg.target_days) (min n cfg.target_days))
        (n * tms.length) =
      ⟨canonicalWindow g tms (n + 1 - min (n + 1) cfg.target_days)
          (min (n + 1) cfg.target_days),
       (n + 1) * tms.length, true, tms.length,
       if n < cfg.target_days then 0 else tms.length⟩ := by
  have hv := timeOffset_lt_of_mem hpt
  have hkpos : 0 < tms.length := List.length_pos.mpr hk
  have hklen : cfg.daily_times.length = tms.length := by
    have h := congrArg List.length hpt
    simpa using h
  by_cases hn : n < cfg.target_days
  · -- window still growing: lo = 0, len = n, no eviction
    have hmin : min n cfg.target_days = n := Nat.min_eq_left (le_of_lt hn)
    have hmin' : min (n + 1) cfg.target_days = n + 1 := Nat.min_eq_left hn
    rw [hmin, hmin', Nat.sub_self, Nat.sub_self]
    have hD : get_next_day (canonicalWindow g tms 0 n) =
        (bootstrapDay + n) * minutesPerDay := by
      cases n with
      | zero => rfl
      | succ j =>
        have h1 : get_next_day (canonicalWindow g tms 0 (j + 1)) =
            ((bootstrapDay + j) + 1) * minutesPerDay := by
          apply get_next_day_of_bounds
          · rw [canonicalWindow_snoc g tms j 0]
            obtain ⟨m, hm, hge⟩ := canonicalDayRows_exists_ge g
              (bootstrapDay + (0 + j)) ((0 + j) * tms.length) hk
            refine ⟨m, List.mem_append_right _ hm, ?_⟩
            have hz : 0 + j = j := Nat.zero_add j
            rw [hz] at hge
            exact hge
          · intro m hm
            have h2 := (canonicalWindow_ts hv m hm).2
            have he : bootstrapDay + 0 + (j + 1) = bootstrapDay + j + 1 := by omega
            rw [he] at h2
            exact h2
        rw [h1]
        have he : bootstrapDay + j + 1 = bootstrapDay + (j + 1) := by omega
        rw [he]
    have hlt : ∀ m ∈ canonicalWindow g tms 0 n,
        m.ts < (bootstrapDay + n) * minutesPerDay := by
      intro m hm
      have h2 := (canonicalWindow_ts hv m hm).2
      have he : bootstrapDay + 0 + n = bootstrapDay + n := by omega
      rw [he] at h2
      exact h2
    rw [rotate_inserts_fresh_day cfg g tms hpt hnd hk hD hlt]
    have hsnoc : canonicalWindow g tms 0 n ++
        canonicalDayRows g (bootstrapDay + n) tms (n * tms.length) =
        canonicalWindow g tms 0 (n + 1) := by
      rw [canonicalWindow_snoc g tms n 0]
      have hz : 0 + n = n := Nat.zero_add n
      rw [hz]
    rw [hsnoc]
    have hle : (canonicalWindow g tms 0 (n + 1)).length ≤
        cfg.target_days * cfg.daily_times.length := by
      rw [canonicalWindow_length, hklen]
      exact Nat.mul_le_mul_right _ hn
    rw [prune_noop hle, if_pos hn]
    congr 1
    exact (Nat.succ_mul n tms.length).symm
  · push_neg at hn
    by_cases hd0 : cfg.target_days = 0
    · -- degenerate retention window: capacity 0, the fresh day is evicted
      rw [hd0]
      simp only [Nat.min_zero, Nat.sub_zero]
      have hD : get_next_day (canonicalWindow g tms n 0) =
          bootstrapDay * minutesPerDay := rfl
      have hlt : ∀ m ∈ canonicalWindow g tms n 0,
          m.ts < bootstrapDay * minutesPerDay := by
        intro m hm
        exact absurd hm (List.not_mem_nil m)
      rw [rotate_inserts_fresh_day cfg g tms hpt hnd hk hD hlt]
      have hprune := prune_removes_oldest_block cfg
        (canonicalDayRows g bootstrapDay tms (n * tms.length)) [] bootstrapDay
        (canonicalDayRows_ne_nil hk)
        (fun m hm => by
          have h2 := canonicalDayRows_ts hv m hm
          have he : (bootstrapDay + 1) * minutesPerDay =
              bootstrapDay * minutesPerDay + minutesPerDay :=
            Nat.succ_mul bootstrapDay minutesPerDay
          exact ⟨h2.1, by omega⟩)
        (fun m hm => absurd hm (List.not_mem_nil m))
        (by
          rw [List.append_nil, canonicalDayRows_length, hd0, hklen]
          simpa using hkpos)
      rw [List.append_nil] at hprune
      have harg : canonicalWindow g tms n 0 ++
          canonicalDayRows g bootstrapDay tms (n * tms.length) =
          canonicalDayRows g bootstrapDay tms (n * tms.length) := by
        rfl
      rw [harg, hprune]
      rw [if_neg (Nat.not_lt_zero n)]
      congr 1
      · exact (Nat.succ_mul n tms.length).symm
      · exact canonicalDayRows_length g bootstrapDay tms (n * tms.length)
    · -- steady state: capacity reached, oldest day evicted
      have hd1 : 1 ≤ cfg.target_days := Nat.one_le_iff_ne_zero.mpr hd0
      have hmin : min n cfg.target_days = cfg.target_days := Nat.min_eq_right hn
      have hmin' : min (n + 1) cfg.target_days = cfg.target_days :=
        Nat.min_eq_right (le_trans hn (Nat.le_succ n))
      rw [hmin, hmin']
      have hD : get_next_day
          (canonicalWindow g tms (n - cfg.target_days) cfg.target_days) =
          (bootstrapDay + n) * minutesPerDay := by
        have h1 : get_next_day
            (canonicalWindow g tms (n - cfg.target_days) cfg.target_days) =
            ((bootstrapDay + n - 1) + 1) * minutesPerDay := by
          apply get_next_day_of_bounds
          · have hsn := canonicalWindow_snoc g tms (cfg.target_days - 1)
              (n - cfg.target_days)
            have he1 : cfg.target_days - 1 + 1 = cfg.target_days := by omega
            rw [he1] at hsn
            rw [hsn]
            obtain ⟨m, hm, hge⟩ := canonicalDayRows_exists_ge g
              (bootstrapDay + (n - cfg.target_days + (cfg.target_days - 1)))
              ((n - cfg.target_days + (cfg.target_days - 1)) * tms.length) hk
            refine ⟨m, List.mem_append_right _ hm, ?_⟩
            have he2 : bootstrapDay + (n - cfg.target_days + (cfg.target_days - 1)) =
                bootstrapDay + n - 1 := by omega
            rw [he2] at hge
            exact hge
          · intro m hm
            have h2 := (canonicalWindow_ts hv m hm).2
            have he3 : bootstrapDay + (n - cfg.target_days) + cfg.target_days =
                bootstrapDay + n - 1 + 1 := by omega
            rw [he3] at h2
            exact h2
        rw [h1]
        have he4 : bootstrapDay + n - 1 + 1 = bootstrapDay + n := by omega
        rw [he4]
      have hlt : ∀ m ∈ canonicalWindow g tms (n - cfg.target_days) cfg.target_days,
          m.ts < (bootstrapDay + n) * minutesPerDay := by
        intro m hm
        have h2 := (canonicalWindow_ts hv m hm).2
        have he : bootstrapDay + (n - cfg.target_days) + cfg.target_days =
            bootstrapDay + n := by omega
        rw [he] at h2
        exact h2
      rw [rotate_inserts_fresh_day cfg g tms hpt hnd hk hD hlt]
      have hsnoc : canonicalWindow g tms (n - cfg.target_days) cfg.target_days ++
          canonicalDayRows g (bootstrapDay + n) tms (n * tms.length) =
          canonicalWindow g tms (n - cfg.target_days) (cfg.target_days + 1) := by
        rw [canonicalWindow_snoc g tms cfg.target_days (n - cfg.target_days)]
        have he : n - cfg.target_days + cfg.target_days = n := by omega
        rw [he]
      rw [hsnoc]
      have hcons : canonicalWindow g tms (n - cfg.target_days) (cfg.target_days + 1) =
          canonicalDayRows g (bootstrapDay + (n - cfg.target_days)) tms
            ((n - cfg.target_days) * tms.length) ++
          canonicalWindow g tms (n - cfg.target_days + 1) cfg.target_days := rfl
      have hprune := prune_removes_oldest_block cfg
        (canonicalDayRows g (bootstrapDay + (n - cfg.target_days)) tms
          ((n - cfg.target_days) * tms.length))
        (canonicalWindow g tms (n - cfg.target_days + 1) cfg.target_days)
        (bootstrapDay + (n - cfg.target_days))
        (canonicalDayRows_ne_nil hk)
        (fun m hm => by
          have h2 := canonicalDayRows_ts hv m hm
          have he : (bootstrapDay + (n - cfg.target_days) + 1) * minutesPerDay =
              (bootstrapDay + (n - cfg.target_days)) * minutesPerDay + minutesPerDay :=
            Nat.succ_mul _ minutesPerDay
          exact ⟨h2.1, by omega⟩)
        (fun m hm => by
          have h2 := (canonicalWindow_ts hv m hm).1
          have he : (bootstrapDay + (n - cfg.target_days + 1)) * minutesPerDay =
              (bootstrapDay + (n - cfg.target_days)) * minutesPerDay + minutesPerDay := by
            rw [show bootstrapDay + (n - cfg.target_days + 1) =
              (bootstrapDay + (n - cfg.target_days)) + 1 by omega]
            exact Nat.succ_mul _ minutesPerDay
          rw [he] at h2
          exact h2)
        (by
          rw [List.length_append, canonicalDayRows_length, canonicalWindow_length,
            hklen]
          exact Nat.lt_add_of_pos_left hkpos)
      rw [hcons, hprune]
      rw [if_neg (by omega)]
      congr 1
      · have he : n - cfg.target_days + 1 = n + 1 - cfg.target_days := by omega
        rw [he]
      · exact (Nat.succ_mul n tms.length).symm
      · exact canonicalDayRows_length g _ tms _

end Monitoring

namespace Monitoring

theorem cycle_state_canonical (cfg : SimConfig) (g : Nat → ℚ × ℚ)
    (tms : List (Nat × Nat))
    (hpt : cfg.daily_times.map parseClockTime = tms.map some)
    (hnd : (tms.map timeOffset).Nodup)
    (hk : tms ≠ []) :
    ∀ n, cycle_state cfg g n =
      (canonicalWindow g tms (n - min n cfg.target_days) (min n cfg.target_days),
       n * tms.length) := by
  intro n
  induction n with
  | zero => simp [cycle_state, canonicalWindow]
  | succ m ih =>
    show ((rotate_and_append_daily_measurements cfg g (cycle_state cfg g m).1
            (cycle_state cfg g m).2).store,
          (rotate_and_append_daily_measurements cfg g (cycle_state cfg g m).1
            (cycle_state cfg g m).2).pos) = _
    simp only [ih]
    rw [rotate_at_canonical cfg g tms hpt hnd hk m]

end Monitoring

namespace Monitoring

/-- C1 counterexample: with `dailyTimes = ["07:30", "07:30"]` (length
`k = 2`) and `targetDays = 2`, the first cycle from an empty store is
successful (returns `true`) but inserts only one reading — the duplicate
entry is skipped by the exact-timestamp check — so the count after cycle 1
is 1, not `min(1, 2) * 2 = 2` as the claim states. -/
theorem growth_bound_counterexample :
    (rotate_and_append_daily_measurements
        { interval_seconds := 60, daily_times := ["07:30", "07:30"],
          target_days := 2, enabled := true }
        (fun _ => ((0:ℚ), (0:ℚ))) [] 0).success = true ∧
    (cycle_state
        { interval_seconds := 60, daily_times := ["07:30", "07:30"],
          target_days := 2, enabled := true }
        (fun _ => ((0:ℚ), (0:ℚ))) 1).1.length = 1 ∧
    (1 : Nat) ≠ min 1 2 * 2 := by
  decide

/-- C1 (amended): for a `dailyTimes` whose entries parse to `k` pairwise
distinct valid clock times, every cycle run from an empty store succeeds;
after cycle `n` the store count is exactly `min(n, targetDays) * k` (hence
never above `targetDays * k`); every cycle inserts exactly `k` readings;
while below capacity nothing is evicted, and once capacity is reached each
further cycle evicts exactly the rows of the oldest stored day — every
reading of that day disappears and every reading of a later day survives —
leaving the net count unchanged. -/
theorem growth_bound_and_eviction_granularity (cfg : SimConfig)
    (g : Nat → ℚ × ℚ) (tms : List (Nat × Nat))
    (hpt : cfg.daily_times.map parseClockTime = tms.map some)
    (hnd : (tms.map timeOffset).Nodup)
    (hk : tms ≠ []) (n : Nat) :
    (rotate_and_append_daily_measurements cfg g (cycle_state cfg g n).1
        (cycle_state cfg g n).2).success = true ∧
    (cycle_state cfg g n).1.length = min n cfg.target_days * cfg.daily_times.length ∧
    (cycle_state cfg g n).1.length ≤ cfg.target_days * cfg.daily_times.length ∧
    (rotate_and_append_daily_measurements cfg g (cycle_state cfg g n).1
        (cycle_state cfg g n).2).inserted = cfg.daily_times.length ∧
    (n < cfg.target_days →
      (rotate_and_append_daily_measurements cfg g (cycle_state cfg g n).1
          (cycle_state cfg g n).2).removed = 0) ∧
    (cfg.target_days ≤ n →
      (rotate_and_append_daily_measurements cfg g (cycle_state cfg g n).1
          (cycle_state cfg g n).2).removed = cfg.daily_times.length ∧
      (rotate_and_append_daily_measurements cfg g (cycle_state cfg g n).1
          (cycle_state cfg g n).2).store.length = (cycle_state cfg g n).1.length ∧
      (∀ m ∈ (cycle_state cfg g n).1,
        m.ts / minutesPerDay = bootstrapDay + (n - cfg.target_days) →
        m ∉ (rotate_and_append_daily_measurements cfg g (cycle_state cfg g n).1
              (cycle_state cfg g n).2).store) ∧
      (∀ m ∈ (cycle_state cfg g n).1,
        bootstrapDay + (n - cfg.target_days) < m.ts / minutesPerDay →
        m ∈ (rotate_and_append_daily_measurements cfg g (cycle_state cfg g n).1
              (cycle_state cfg g n).2).store)) := by
  have hv := timeOffset_lt_of_mem hpt
  have hkpos : 0 < tms.length := List.length_pos.mpr hk
  have hklen : cfg.daily_times.length = tms.length := by
    have h := congrArg List.length hpt
    simpa using h
  have hst := cycle_state_canonical cfg g tms hpt hnd hk n
  have hstep := rotate_at_canonical cfg g tms hpt hnd hk n
  rw [hst]
  simp only
  rw [hstep]
  simp only
  refine ⟨trivial, ?_, ?_, hklen.symm, ?_, ?_⟩
  · rw [canonicalWindow_length, hklen]
  · rw [canonicalWindow_length, hklen]
    exact Nat.mul_le_mul_right _ (Nat.min_le_right n cfg.target_days)
  · intro hlt
    rw [if_pos hlt]
  · intro hge
    have hmin : min n cfg.target_days = cfg.target_days := Nat.min_eq_right hge
    have hmin' : min (n + 1) cfg.target_days = cfg.target_days :=
      Nat.min_eq_right (le_trans hge (Nat.le_succ n))
    refine ⟨by rw [if_neg (by omega)]; exact hklen.symm, ?_, ?_, ?_⟩
    · rw [canonicalWindow_length, canonicalWindow_length, hmin, hmin']
    · intro m hm hdate hmem
      rw [hmin'] at hmem
      have h1 := (canonicalWindow_ts hv m hmem).1
      have h2 : bootstrapDay + (n + 1 - cfg.target_days) ≤ m.ts / minutesPerDay :=
        (Nat.le_div_iff_mul_le (by norm_num [minutesPerDay])).mpr h1
      rw [hmin] at hm
      omega
    · intro m hm hdate
      rw [hmin] at hm
      rw [hmin']
      rcases Nat.eq_zero_or_pos cfg.target_days with hd0 | hd1
      · rw [hd0] at hm
        exact absurd hm (List.not_mem_nil m)
      · rw [canonicalWindow_cons g tms _ _ hd1] at hm
        rcases List.mem_append.mp hm with hmem | hmem
        · have := canonicalDayRows_date hv m hmem
          omega
        · have hsn := canonicalWindow_snoc g tms (cfg.target_days - 1)
            (n - cfg.target_days + 1)
          have he1 : cfg.target_days - 1 + 1 = cfg.target_days := by omega
          rw [he1] at hsn
          have he2 : n - cfg.target_days + 1 = n + 1 - cfg.target_days := by omega
          rw [he2] at hsn hmem
          rw [hsn]
          exact List.mem_append_left _ hmem

/-- Witness for `growth_bound_and_eviction_granularity`: default
configuration (entries parsing to the distinct times 07:30 and 16:30),
`n = 1` — the store count after one cycle is `min(1, 365) * 2 = 2`. -/
theorem growth_bound_witness :
    (cycle_state defaultConfig (fun _ => ((0:ℚ), (0:ℚ))) 1).1.length =
      min 1 defaultConfig.target_days * defaultConfig.daily_times.length :=
  (growth_bound_and_eviction_granularity defaultConfig
    (fun _ => ((0:ℚ), (0:ℚ))) [(7, 30), (16, 30)]
    (by decide) (by decide) (by decide) 1).2.1

end Monitoring

namespace Monitoring

/-- C2 (amended): the idempotency guard in the code — return success with
zero insertions when a reading with the target day's local date already
exists — is unreachable: the target day is always the day after the most
recent reading's local date, so the guard's count is zero on every store.
Consequently an immediate second `runCycle` is not a no-op: with a
configuration parsing to distinct valid clock times and `targetDays ≥ 2`,
the second of two successive calls from an empty store succeeds and
inserts `k` further readings, raising the count from `k` to `2k`. -/
theorem idempotency_guard_dead_second_call_inserts :
    (∀ s : Store,
      countInRange s (get_next_day s) (get_next_day s + minutesPerDay) = 0) ∧
    (∀ (cfg : SimConfig) (g : Nat → ℚ × ℚ) (tms : List (Nat × Nat)),
      cfg.daily_times.map parseClockTime = tms.map some →
      (tms.map timeOffset).Nodup → tms ≠ [] → 2 ≤ cfg.target_days →
      (rotate_and_append_daily_measurements cfg g (cycle_state cfg g 1).1
          (cycle_state cfg g 1).2).success = true ∧
      (rotate_and_append_daily_measurements cfg g (cycle_state cfg g 1).1
          (cycle_state cfg g 1).2).inserted = cfg.daily_times.length ∧
      (cycle_state cfg g 1).1.length = cfg.daily_times.length ∧
      (cycle_state cfg g 2).1.length = 2 * cfg.daily_times.length) := by
  constructor
  · intro s
    cases ht : latestTs s with
    | none =>
      have hs : s = [] := by
        unfold latestTs at ht
        rw [List.max?_eq_none_iff] at ht
        exact List.map_eq_nil.mp ht
      subst hs
      rfl
    | some t =>
      have ht' := ht
      unfold latestTs at ht'
      rw [List.max?_eq_some_iff'] at ht'
      unfold get_next_day
      rw [ht]
      show countInRange s ((t / minutesPerDay + 1) * minutesPerDay)
        ((t / minutesPerDay + 1) * minutesPerDay + minutesPerDay) = 0
      apply countInRange_eq_zero_iff.mpr
      intro m hm
      have hle : m.ts ≤ t := ht'.2 m.ts (List.mem_map_of_mem _ hm)
      simp only [minutesPerDay] at *
      omega
  · intro cfg g tms hpt hnd hk hd2
    have hklen : cfg.daily_times.length = tms.length := by
      have h := congrArg List.length hpt
      simpa using h
    have hst := cycle_state_canonical cfg g tms hpt hnd hk
    have hstep := rotate_at_canonical cfg g tms hpt hnd hk 1
    have hmin1 : min 1 cfg.target_days = 1 := Nat.min_eq_left (by omega)
    have hmin2 : min 2 cfg.target_days = 2 := Nat.min_eq_left hd2
    rw [hst 1]
    simp only
    rw [hstep]
    refine ⟨rfl, hklen.symm, ?_, ?_⟩
    · rw [canonicalWindow_length, hklen, hmin1, Nat.one_mul]
    · rw [hst 2]
      simp only
      rw [canonicalWindow_length, hklen, hmin2]

/-- Witness for `idempotency_guard_dead_second_call_inserts`: default
configuration — after two back-to-back cycles from an empty store the
count is `2 * 2 = 4`, not 2. -/
theorem idempotency_guard_dead_witness :
    countInRange [] (get_next_day []) (get_next_day [] + minutesPerDay) = 0 ∧
    (cycle_state defaultConfig (fun _ => ((0:ℚ), (0:ℚ))) 2).1.length =
      2 * defaultConfig.daily_times.length :=
  ⟨idempotency_guard_dead_second_call_inserts.1 [],
   (idempotency_guard_dead_second_call_inserts.2 defaultConfig
     (fun _ => ((0:ℚ), (0:ℚ))) [(7, 30), (16, 30)]
     (by decide) (by decide) (by decide) (by norm_num [defaultConfig])).2.2.2⟩

end Monitoring

namespace Monitoring

/-- C5: target-day determination — on an empty store the target day is the
fixed bootstrap date 2025-01-01 (local day number 20089 since 1970-01-01);
otherwise it is the local calendar date of the most recent reading plus
one day.  Scenario A: the first cycle on an empty store with the default
configuration returns `true` and inserts exactly the two readings
timestamped 2025-01-01 07:30 and 2025-01-01 16:30 local time, for every
stream of random draws. -/
theorem target_day_determination :
    get_next_day [] = bootstrapDay * minutesPerDay ∧
    (∀ (s : Store) (m : Measurement), m ∈ s → (∀ m' ∈ s, m'.ts ≤ m.ts) →
      get_next_day s = (m.ts / minutesPerDay + 1) * minutesPerDay) ∧
    (∀ g : Nat → ℚ × ℚ,
      (rotate_and_append_daily_measurements defaultConfig g [] 0).success = true ∧
      tsList (rotate_and_append_daily_measurements defaultConfig g [] 0).store =
        [bootstrapDay * minutesPerDay + (7 * 60 + 30),
         bootstrapDay * minutesPerDay + (16 * 60 + 30)]) := by
  refine ⟨rfl, ?_, ?_⟩
  · intro s m hm hmax
    cases ht : latestTs s with
    | none =>
      exfalso
      unfold latestTs at ht
      rw [List.max?_eq_none_iff] at ht
      have hmem : m.ts ∈ tsList s := List.mem_map_of_mem _ hm
      rw [ht] at hmem
      cases hmem
    | some t =>
      have ht' := ht
      unfold latestTs at ht'
      rw [List.max?_eq_some_iff'] at ht'
      obtain ⟨hmem, hub⟩ := ht'
      obtain ⟨m1, hm1, hts⟩ := List.mem_map.mp hmem
      have h1 : t ≤ m.ts := hts ▸ hmax m1 hm1
      have h2 : m.ts ≤ t := hub m.ts (List.mem_map_of_mem _ hm)
      have heq : t = m.ts := le_antisymm h1 h2
      unfold get_next_day
      rw [ht]
      show (t / minutesPerDay + 1) * minutesPerDay = _
      rw [heq]
  · intro g
    have hstep : rotate_and_append_daily_measurements defaultConfig g [] 0 =
        ⟨canonicalWindow g [(7, 30), (16, 30)] 0 1, 2, true, 2, 0⟩ :=
      rotate_at_canonical defaultConfig g [(7, 30), (16, 30)]
        (by decide) (by decide) (by decide) 0
    rw [hstep]
    refine ⟨rfl, ?_⟩
    show tsList (canonicalWindow g [(7, 30), (16, 30)] 0 1) = _
    simp [tsList, canonicalWindow, canonicalDayRows, mkMeasurement, timeOffset]

/-- Witness for `target_day_determination`: one stored reading at the
bootstrap midnight makes the next target day 2025-01-02. -/
theorem target_day_determination_witness :
    get_next_day
        [⟨bootstrapDay * minutesPerDay, 18, 18, 18, 3 / 5, 3 / 5, 3 / 5⟩] =
      ((bootstrapDay * minutesPerDay : Nat) / minutesPerDay + 1) * minutesPerDay :=
  target_day_determination.2.1 _
    ⟨bootstrapDay * minutesPerDay, 18, 18, 18, 3 / 5, 3 / 5, 3 / 5⟩
    (List.mem_singleton.mpr rfl)
    (fun m' hm' => by rw [List.mem_singleton.mp hm'])

end Monitoring

namespace Monitoring

/-- C4: the retention enforcement computes
`capacity = targetDays * len(dailyTimes)`; at or below capacity it deletes
nothing and returns 0; above capacity it deletes exactly the readings
whose local calendar date equals that of the earliest stored reading
(the window `[dayStart, dayStart + 24h)`), returns the number of rows
removed, and keeps every reading of any other day — never more than the
single oldest day is deleted per call. -/
theorem retention_policy_spec :
    (∀ (cfg : SimConfig) (s : Store),
      s.length ≤ cfg.target_days * cfg.daily_times.length →
      prune_oldest_day cfg s = (s, 0)) ∧
    (∀ (cfg : SimConfig) (s : Store) (m0 : Measurement),
      cfg.target_days * cfg.daily_times.length < s.length →
      m0 ∈ s → (∀ m ∈ s, m0.ts ≤ m.ts) →
      prune_oldest_day cfg s =
        (s.filter (fun m =>
            decide (m.ts / minutesPerDay ≠ m0.ts / minutesPerDay)),
         (s.filter (fun m =>
            decide (m.ts / minutesPerDay = m0.ts / minutesPerDay))).length)) := by
  refine ⟨fun cfg s h => prune_noop h, ?_⟩
  intro cfg s m0 hlen hm hmin
  have hts : earliestTs s = some m0.ts := by
    unfold earliestTs
    rw [List.min?_eq_some_iff']
    refine ⟨List.mem_map_of_mem _ hm, fun b hb => ?_⟩
    obtain ⟨m, hm', hts'⟩ := List.mem_map.mp hb
    rw [← hts']
    exact hmin m hm'
  unfold prune_oldest_day
  rw [if_neg (by omega), hts]
  show deleteInRange s (m0.ts / minutesPerDay * minutesPerDay)
      (m0.ts / minutesPerDay * minutesPerDay + minutesPerDay) = _
  unfold deleteInRange countInRange rowsInRange
  have hpt1 : ∀ m : Measurement,
      (!(decide (m0.ts / minutesPerDay * minutesPerDay ≤ m.ts) &&
         decide (m.ts < m0.ts / minutesPerDay * minutesPerDay + minutesPerDay))) =
        decide (m.ts / minutesPerDay ≠ m0.ts / minutesPerDay) := by
    intro m
    rw [← Bool.decide_and, ← decide_not, decide_eq_decide]
    exact not_congr mem_day_range_iff
  have hpt2 : ∀ m : Measurement,
      (decide (m0.ts / minutesPerDay * minutesPerDay ≤ m.ts) &&
         decide (m.ts < m0.ts / minutesPerDay * minutesPerDay + minutesPerDay)) =
        decide (m.ts / minutesPerDay = m0.ts / minutesPerDay) := by
    intro m
    rw [← Bool.decide_and, decide_eq_decide]
    exact mem_day_range_iff
  rw [List.filter_congr (fun m _ => hpt1 m),
    List.filter_congr (fun m _ => hpt2 m)]

/-- Witness for `retention_policy_spec`: `targetDays = 1`, one clock time
(capacity 1), and a store holding one reading on each of two days — the
older reading is evicted; plus the no-op branch on the same store within
capacity 2. -/
theorem retention_policy_witness :
    prune_oldest_day
        { interval_seconds := 60, daily_times := ["07:30"],
          target_days := 2, enabled := true }
        [⟨450, 18, 18, 18, 3 / 5, 3 / 5, 3 / 5⟩,
         ⟨1890, 18, 18, 18, 3 / 5, 3 / 5, 3 / 5⟩] =
      ([⟨450, 18, 18, 18, 3 / 5, 3 / 5, 3 / 5⟩,
        ⟨1890, 18, 18, 18, 3 / 5, 3 / 5, 3 / 5⟩], 0) ∧
    prune_oldest_day
        { interval_seconds := 60, daily_times := ["07:30"],
          target_days := 1, enabled := true }
        [⟨450, 18, 18, 18, 3 / 5, 3 / 5, 3 / 5⟩,
         ⟨1890, 18, 18, 18, 3 / 5, 3 / 5, 3 / 5⟩] =
      (([⟨450, 18, 18, 18, 3 / 5, 3 / 5, 3 / 5⟩,
         ⟨1890, 18, 18, 18, 3 / 5, 3 / 5, 3 / 5⟩] : Store).filter (fun m =>
          decide (m.ts / minutesPerDay ≠
            (450 : Nat) / minutesPerDay)),
       (([⟨450, 18, 18, 18, 3 / 5, 3 / 5, 3 / 5⟩,
          ⟨1890, 18, 18, 18, 3 / 5, 3 / 5, 3 / 5⟩] : Store).filter (fun m =>
          decide (m.ts / minutesPerDay =
            (450 : Nat) / minutesPerDay))).length) :=
  ⟨retention_policy_spec.1 _ _ (by norm_num),
   retention_policy_spec.2 _ _ ⟨450, 18, 18, 18, 3 / 5, 3 / 5, 3 / 5⟩
     (by norm_num)
     (List.mem_cons_self _ _)
     (fun m hmem => by
       rcases List.mem_cons.mp hmem with rfl | hmem
       · exact le_refl _
       · rw [List.mem_singleton.mp hmem]
         norm_num)⟩

end Monitoring
